import Mathlib

/-!
Verification of the indexing and vector-storage engine of the Asymptote API
(chunker, FAISS-backed vector stores, SQLite metadata store, repair service,
indexer orchestration) against its specification.

The Python sources are shallowly embedded: strings become `List Char`,
SQLite tables become Lean lists in rowid order, NumPy arrays become lists
over an abstract vector type, and external collaborators (FAISS similarity
search, the embedding model, the LLM rerank/synthesis calls, SHA-256) are
taken as function parameters.  Machine floats never enter any modelled
computation: similarity scores and embedding vectors are only moved around,
never inspected, so they stay abstract.
-/

set_option maxRecDepth 8192

namespace AsymptoteSpec

/-! ## Chunker (`services/chunker.py`)

`TextChunker._chunk_text` slides a window of `chunk_size` characters with
`chunk_overlap` characters of overlap, pulling each window end back to a
sentence delimiter (or word boundary) found in the last
`int(chunk_size * 0.2)` characters of the window.  The pull-back margin
`int(chunk_size * 0.2)` is kept as an explicit parameter `margin`
(for the concrete sizes used in theorems below its value is stated and
justified where used, e.g. `int(10 * 0.2) = 2` in Python floats).

Python's `while` loop may not terminate, so the loop is given explicit
fuel and returns `none` when the fuel runs out: a run of the Python loop
that terminates is exactly a run that returns `some` for every
sufficiently large fuel. -/

/-- The character class stripped by Python's `str.strip()` (ASCII whitespace). -/
def isPySpace (c : Char) : Bool :=
  c = ' ' || c = '\t' || c = '\n' || c = '\r' || c = '\x0b' || c = '\x0c'

/-- Python `text[s:e]` on a `List Char` (clamping semantics for `0 ≤ s, e`). -/
def pySlice (l : List Char) (s e : Nat) : List Char :=
  (l.take e).drop s

/-- Python `text.strip()`: drop leading and trailing whitespace. -/
def pyStrip (l : List Char) : List Char :=
  (l.dropWhile isPySpace).rdropWhile isPySpace

/-- Helper for `pyRfind`: the largest `j ≤ i` such that `pat` occurs in `l` at
position `j`, scanning downwards from `i`. -/
def rfindFrom (l pat : List Char) : Nat → Option Nat
  | 0 => if (l.drop 0).take pat.length = pat then some 0 else none
  | i + 1 =>
    if (l.drop (i + 1)).take pat.length = pat then some (i + 1)
    else rfindFrom l pat i

/-- Python `l.rfind(pat)`: index of the last occurrence of `pat` in `l`
(`none` plays the role of Python's `-1`). -/
def pyRfind (l pat : List Char) : Option Nat :=
  if pat.length ≤ l.length then rfindFrom l pat (l.length - pat.length) else none

/-- The sentence delimiters tried in order by `_chunk_text`:
`". ", "! ", "? ", "\n\n", "\n"`. -/
def sentenceDelims : List (List Char) :=
  [['.', ' '], ['!', ' '], ['?', ' '], ['\n', '\n'], ['\n']]

/-- The `for delimiter in [...]` loop: first delimiter of the list that occurs
in the preview, together with the match position and the delimiter length. -/
def findDelim (preview : List Char) : List (List Char) → Option (Nat × Nat)
  | [] => none
  | d :: ds =>
    match pyRfind preview d with
    | some i => some (i, d.length)
    | none => findDelim preview ds

/-- One window-end computation of `_chunk_text`: `end = start + chunk_size`,
pulled back to a sentence delimiter (else a word boundary) inside the last
`margin` characters, whenever the window does not already reach the end of
the text. -/
def adjustEnd (text : List Char) (start cs margin : Nat) : Nat :=
  if start + cs < text.length then
    match findDelim (pySlice text (start + cs - margin) (start + cs)) sentenceDelims with
    | some (i, dlen) => (start + cs - margin) + i + dlen
    | none =>
      match pyRfind (pySlice text (start + cs - margin) (start + cs)) [' '] with
      | some j => (start + cs - margin) + j + 1
      | none => start + cs
  else start + cs

/-- `chunk = text[start:end].strip(); if chunk: chunks.append(chunk)`:
the accumulator keeps the emitted window bounds (the chunk text is recovered
as `pyStrip (pySlice text s e)`). -/
def stepAcc (text : List Char) (s e : Nat) (acc : List (Nat × Nat)) : List (Nat × Nat) :=
  if pyStrip (pySlice text s e) = [] then acc else acc ++ [(s, e)]

/-- The slide of the window start:
`start = end - overlap` clamped at `0` (ℕ-subtraction), then
`if len(chunks) > 0 and start <= end - chunk_size: start = end`. -/
def stepStart (cs ov e accLen : Nat) : Nat :=
  if 0 < accLen ∧ (e - ov) + cs ≤ e then e else e - ov

/-- The `while start < len(text)` loop of `_chunk_text`, with explicit fuel;
returns the emitted window bounds in emission order, or `none` when the fuel
is exhausted (i.e. the Python loop is still running). -/
def chunkLoop (cs ov margin : Nat) (text : List Char) :
    Nat → Nat → List (Nat × Nat) → Option (List (Nat × Nat))
  | 0, _, _ => none
  | fuel + 1, start, acc =>
    if start < text.length then
      chunkLoop cs ov margin text fuel
        (stepStart cs ov (adjustEnd text start cs margin)
          (stepAcc text start (adjustEnd text start cs margin) acc).length)
        (stepAcc text start (adjustEnd text start cs margin) acc)
    else some acc

/-- `TextChunker._chunk_text`: texts of at most `chunk_size` characters are
returned whole; longer texts go through the sliding-window loop. -/
def chunk_text (cs ov margin : Nat) (text : List Char) (fuel : Nat) :
    Option (List (List Char)) :=
  if text.length ≤ cs then some [text]
  else
    (chunkLoop cs ov margin text fuel 0 []).map
      (fun ws => ws.map (fun w => pyStrip (pySlice text w.1 w.2)))

/-- The `TextChunker.__init__` validation: `chunk_overlap >= chunk_size`
raises `ValueError`, so a constructed chunker satisfies `ov < cs`. -/
def chunkerValid (cs ov : Nat) : Prop := ov < cs

/-- `c` is the text of the window `w = (s, e)` of `text` with only
whitespace trimmed at the two window edges: `c` is the verbatim slice
`text[s':e']` for some `s ≤ s' ≤ e' ≤ min e (len text)`, and every window
position left of `s'` or right of `e'` holds a whitespace character.  This
is the positional contract between one emitted chunk of `_chunk_text` and
its window. -/
def IsTrimmedWindow (text : List Char) (w : Nat × Nat) (c : List Char) : Prop :=
  ∃ s' e', w.1 ≤ s' ∧ s' ≤ e' ∧ e' ≤ min w.2 text.length ∧
    c = pySlice text s' e' ∧
    (∀ j, ∀ hj : j < text.length, w.1 ≤ j → j < s' →
      isPySpace (text.get ⟨j, hj⟩) = true) ∧
    (∀ j, ∀ hj : j < text.length, e' ≤ j → j < w.2 →
      isPySpace (text.get ⟨j, hj⟩) = true)

/-- The text of the non-termination failing input for `_chunk_text` with
`chunk_size=10, chunk_overlap=9` (see `chunker_infinite_loop`). -/
def badChunkText : List Char := "abcdefgh\nabcd".toList

/-! ## Metadata store (`services/metadata_store.py`)

The SQLite `chunks` table is modelled as a list of rows in `rowid`
(insertion) order; the chunk ordinal used by the vector store is the list
index.  The v3.0 format columns (`source_format`, `extraction_method`,
`csv_*`, timestamps) carry no information used by any claim and are
omitted from the row model. -/

/-- One row of the `chunks` table. -/
structure ChunkRow where
  chunk_id : String
  document_id : String
  filename : String
  page_number : Nat
  chunk_index : Nat
  text : List Char
deriving DecidableEq, Repr

/-- SQLite `INSERT OR REPLACE` for one `chunks` row: the conflicting row
(`chunk_id` is UNIQUE) is deleted and the new row is inserted with a fresh
autoincrement rowid, i.e. at the end of rowid order. -/
def insert_or_replace_chunk (rows : List ChunkRow) (c : ChunkRow) : List ChunkRow :=
  rows.filter (fun r => r.chunk_id ≠ c.chunk_id) ++ [c]

/-- `MetadataStore.add_chunks`: `executemany` of `INSERT OR REPLACE` rows in
the given order. -/
def meta_add_chunks (rows : List ChunkRow) (chunks : List ChunkRow) : List ChunkRow :=
  chunks.foldl insert_or_replace_chunk rows

/-- `MetadataStore.delete_document`: deletes all chunk rows of the document
(and its `documents` row) and returns the number of chunk rows removed. -/
def meta_delete_document (rows : List ChunkRow) (docId : String) : Nat × List ChunkRow :=
  ((rows.filter (fun r => r.document_id = docId)).length,
   rows.filter (fun r => r.document_id ≠ docId))

/-! ## FAISS-backed vector store (`services/vector_store_v2.py`)

`VectorStoreV2` couples a FAISS `IndexFlatIP` (an append-only ordered
sequence of vectors) with the SQLite metadata store.  Vectors live in an
abstract type `V`; the L2 normalisation `e / np.linalg.norm(e)` is an
abstract map `norm : V → V` (a float computation never inspected by the
store logic). -/

/-- The in-memory state of `VectorStoreV2`: the FAISS vector sequence and
the metadata rows in rowid order. -/
structure V2State (V : Type) where
  faiss : List V
  metaRows : List ChunkRow
deriving DecidableEq, Repr

/-- `VectorStoreV2.add_chunks` as a trace of intermediate states (the state
before any write, after the FAISS append, and after the metadata append) —
the order of the two writes is exactly the order in the source:
`self.index.add(...)` first, `self.metadata_store.add_chunks(...)` second.
Validation `len(chunks) != len(embeddings)` raises `ValueError`, and an
empty batch returns without touching either store. -/
def add_chunks_trace {V : Type} (norm : V → V) (s : V2State V)
    (chunks : List ChunkRow) (embeddings : List V) :
    Except String (List (V2State V)) :=
  if chunks.length ≠ embeddings.length then
    .error "Number of chunks must match number of embeddings"
  else if chunks.length = 0 then .ok [s]
  else
    .ok [s,
      { s with faiss := s.faiss ++ embeddings.map norm },
      { faiss := s.faiss ++ embeddings.map norm,
        metaRows := meta_add_chunks s.metaRows chunks }]

/-- `VectorStoreV2.add_chunks`, final state only. -/
def add_chunks {V : Type} (norm : V → V) (s : V2State V)
    (chunks : List ChunkRow) (embeddings : List V) : Except String (V2State V) :=
  if chunks.length ≠ embeddings.length then
    .error "Number of chunks must match number of embeddings"
  else if chunks.length = 0 then .ok s
  else
    .ok { faiss := s.faiss ++ embeddings.map norm,
          metaRows := meta_add_chunks s.metaRows chunks }

/-- `VectorStoreV2.delete_document`: delegates to
`MetadataStore.delete_document`; the FAISS vectors are not touched
("FAISS vectors remain in the index"). -/
def delete_document {V : Type} (s : V2State V) (docId : String) : Nat × V2State V :=
  ((meta_delete_document s.metaRows docId).1,
   { s with metaRows := (meta_delete_document s.metaRows docId).2 })

/-- `MetadataStore.get_chunk_by_index`: the row at `OFFSET i` of the rows in
rowid order. -/
def get_chunk_by_index {V : Type} (s : V2State V) (i : Nat) : Option ChunkRow :=
  s.metaRows.get? i

/-- `VectorStoreV2.search`.  The FAISS call
`self.index.search(query, k)` is the abstract `faiss_search` parameter
(its float inner-product computation is external); it yields `k`
(similarity, index) pairs where index `-1` marks an empty slot.  Hits whose
index is `-1` or has no metadata row are skipped. -/
def search {V S : Type} (s : V2State V) (faiss_search : Nat → List (S × Int))
    (topK : Nat) : List (S × ChunkRow) :=
  if s.faiss.length = 0 then []
  else
    (faiss_search (min topK s.faiss.length)).filterMap (fun hit =>
      if hit.2 = -1 then none
      else
        match get_chunk_by_index s hit.2.toNat with
        | none => none
        | some c => some (hit.1, c))

/-! ## Repair service (`services/index_repair.py`) -/

/-- The `status` values produced by `IndexRepairService.diagnose`. -/
inductive SyncStatus where
  | unknown
  | synced
  | out_of_sync
  | missing_index
  | missing_metadata
  | corrupted_index
  | corrupted_metadata
deriving DecidableEq, Repr

/-- The `documents`-table integrity counts computed by
`IndexRepairService._check_documents_table`. -/
structure DocTableInfo where
  documents_count : Nat
  unique_doc_ids : Nat
  orphaned_chunks_count : Nat
deriving DecidableEq, Repr

/-- The on-disk world as seen by `diagnose`: which files exist and what each
load yields (`none` = the load raises). -/
structure DiagnoseEnv where
  index_file_exists : Bool
  metadata_db_exists : Bool
  faiss_load : Option Nat
  embeddings_file_exists : Bool
  embeddings_load : Option Nat
  metadata_load : Option (Nat × DocTableInfo)
deriving DecidableEq, Repr

/-- The result dictionary built by `diagnose`. -/
structure DiagnoseResult where
  status : SyncStatus
  faiss_count : Nat
  metadata_count : Nat
  embeddings_count : Nat
  documents_count : Nat
  orphaned_chunks_count : Nat
  issues : List String
  recommendations : List String
deriving DecidableEq, Repr

/-- The `embeddings_count` field of the result: the loaded length when the
embeddings file exists and loads, `0` otherwise. -/
def embeddingsCount (env : DiagnoseEnv) : Nat :=
  if env.embeddings_file_exists then env.embeddings_load.getD 0 else 0

/-- The issue recorded when the embeddings file exists but fails to load. -/
def embeddingsIssues (env : DiagnoseEnv) : List String :=
  if env.embeddings_file_exists ∧ env.embeddings_load = none then
    ["Failed to load embeddings file"]
  else []

/-- `IndexRepairService.diagnose`.  Branch structure follows the source:
missing files, then load failures, then the three-way count comparison
(`synced` iff `faiss_count == metadata_count == embeddings_count`, else
`out_of_sync` with per-mismatch issues).  Issue strings are reproduced
without Python interpolation punctuation. -/
def diagnose (env : DiagnoseEnv) : DiagnoseResult :=
  if env.index_file_exists = false then
    { status := .missing_index, faiss_count := 0, metadata_count := 0,
      embeddings_count := 0, documents_count := 0, orphaned_chunks_count := 0,
      issues := ["FAISS index file not found"],
      recommendations := ["Re-index all documents"] }
  else if env.metadata_db_exists = false then
    { status := .missing_metadata, faiss_count := 0, metadata_count := 0,
      embeddings_count := 0, documents_count := 0, orphaned_chunks_count := 0,
      issues := ["Metadata database not found"],
      recommendations := ["Re-index all documents"] }
  else
    match env.faiss_load with
    | none =>
      { status := .corrupted_index, faiss_count := 0, metadata_count := 0,
        embeddings_count := 0, documents_count := 0, orphaned_chunks_count := 0,
        issues := ["Failed to load FAISS index"],
        recommendations := ["Rebuild FAISS index from metadata"] }
    | some fc =>
      match env.metadata_load with
      | none =>
        { status := .corrupted_metadata, faiss_count := fc, metadata_count := 0,
          embeddings_count := embeddingsCount env, documents_count := 0,
          orphaned_chunks_count := 0,
          issues := embeddingsIssues env ++ ["Failed to load metadata"],
          recommendations := ["Re-index all documents"] }
      | some (mc, info) =>
        if fc = mc ∧ mc = embeddingsCount env then
          { status := .synced, faiss_count := fc, metadata_count := mc,
            embeddings_count := embeddingsCount env,
            documents_count := info.documents_count,
            orphaned_chunks_count := info.orphaned_chunks_count,
            issues := embeddingsIssues env, recommendations := [] }
        else
          { status := .out_of_sync, faiss_count := fc, metadata_count := mc,
            embeddings_count := embeddingsCount env,
            documents_count := info.documents_count,
            orphaned_chunks_count := info.orphaned_chunks_count,
            issues := embeddingsIssues env
              ++ (if mc < fc then
                    ["FAISS has " ++ toString (fc - mc) ++ " orphaned entries (no metadata)"]
                  else [])
              ++ (if fc < mc then
                    ["Metadata has " ++ toString (mc - fc) ++ " entries not in FAISS index"]
                  else [])
              ++ (if embeddingsCount env ≠ fc then
                    ["Embeddings file count (" ++ toString (embeddingsCount env)
                      ++ ") does not match FAISS (" ++ toString fc ++ ")"]
                  else [])
              ++ (if 0 < info.orphaned_chunks_count then
                    ["Found " ++ toString info.orphaned_chunks_count
                      ++ " chunks with no corresponding document record"]
                  else [])
              ++ (if info.documents_count = 0 ∧ 0 < mc then
                    ["Documents table is empty but chunks exist - document records were not saved"]
                  else []),
            recommendations :=
              (if mc < fc then ["Run rebuild_from_metadata to rebuild FAISS index"] else [])
              ++ (if fc < mc then ["Run rebuild_from_metadata to re-embed missing chunks"] else [])
              ++ (if 0 < info.orphaned_chunks_count then
                    ["Run repair_documents_table to reconstruct missing document records"]
                  else [])
              ++ (if info.documents_count = 0 ∧ 0 < mc then
                    ["Run repair_documents_table to reconstruct document records from chunks"]
                  else []) }

/-- The `DiagnoseEnv` produced by a saved `VectorStoreV2` state: both the
index file and the metadata database exist and load with their respective
counts; `VectorStoreV2` never writes an `embeddings.npy` file, so the
embeddings file is absent.  The `documents`-table counts are a parameter. -/
def v2DiagnoseEnv {V : Type} (s : V2State V) (info : DocTableInfo) : DiagnoseEnv :=
  { index_file_exists := true, metadata_db_exists := true,
    faiss_load := some s.faiss.length,
    embeddings_file_exists := false, embeddings_load := none,
    metadata_load := some (s.metaRows.length, info) }

/-- The on-disk world consumed by
`IndexRepairService.truncate_faiss_to_metadata`: the FAISS count, the
metadata chunk count, and the raw embeddings file (`none` = absent). -/
structure TruncEnv (V : Type) where
  faiss_count : Nat
  metadata_count : Nat
  embeddings_file : Option (List V)
deriving DecidableEq, Repr

/-- The result dictionary of `truncate_faiss_to_metadata`. -/
structure TruncResult where
  success : Bool
  faiss_before : Nat
  faiss_after : Nat
  removed : Nat
  error_msg : Option String
  message : Option String
deriving DecidableEq, Repr

/-- `IndexRepairService.truncate_faiss_to_metadata`: no-op success when the
index is not larger than metadata; explicit failure when the embeddings file
is missing or shorter than the metadata count; otherwise rebuild the index
from the first `metadata_count` raw embeddings and rewrite both files. -/
def truncate_faiss_to_metadata {V : Type} (env : TruncEnv V) :
    TruncResult × TruncEnv V :=
  if env.faiss_count ≤ env.metadata_count then
    (⟨true, env.faiss_count, env.faiss_count, 0, none,
      some "FAISS index is not larger than metadata - no truncation needed"⟩, env)
  else
    match env.embeddings_file with
    | none =>
      (⟨false, env.faiss_count, 0, 0,
        some "Embeddings file not found - cannot truncate safely", none⟩, env)
    | some embs =>
      if embs.length < env.metadata_count then
        (⟨false, env.faiss_count, 0, 0,
          some ("Embeddings file has fewer entries (" ++ toString embs.length
            ++ ") than metadata (" ++ toString env.metadata_count
            ++ ") - cannot truncate safely"), none⟩, env)
      else
        (⟨true, env.faiss_count, (embs.take env.metadata_count).length,
          env.faiss_count - (embs.take env.metadata_count).length, none,
          some ("Truncated FAISS index from " ++ toString env.faiss_count
            ++ " to " ++ toString (embs.take env.metadata_count).length ++ " entries")⟩,
         ⟨(embs.take env.metadata_count).length, env.metadata_count,
          some (embs.take env.metadata_count)⟩)

/-! ## Indexer orchestration (`services/indexing/indexer.py`) -/

/-- `DocumentIndexer._generate_document_id`: the first 16 hex characters of
the SHA-256 digest of the file content.  The hash itself (`hashlib.sha256`)
is an external primitive, passed as the function `sha256hex`. -/
def generate_document_id (sha256hex : List UInt8 → String) (content : List UInt8) : String :=
  (sha256hex content).take 16

/-- `TextChunker.chunk_document`: iterate the page map in order, skip pages
whose text strips to empty, chunk each remaining page with `_chunk_text`, and
label the chunks `{document_id}_p{page}_c{index}`.  Returns `none` when the
underlying `_chunk_text` loop fails to terminate within the fuel. -/
def chunk_document (cs ov margin fuel : Nat) (docId filename : String) :
    List (Nat × List Char) → Option (List ChunkRow)
  | [] => some []
  | (pn, t) :: rest =>
    if pyStrip t = [] then chunk_document cs ov margin fuel docId filename rest
    else
      match chunk_text cs ov margin t fuel with
      | none => none
      | some cks =>
        match chunk_document cs ov margin fuel docId filename rest with
        | none => none
        | some restRows =>
          some ((cks.enum.map (fun p =>
            { chunk_id := docId ++ "_p" ++ toString pn ++ "_c" ++ toString p.1,
              document_id := docId, filename := filename,
              page_number := pn, chunk_index := p.1, text := p.2 : ChunkRow }))
            ++ restRows)

/-- The document metadata returned by `DocumentIndexer.index_document`
(timestamp and configuration-snapshot fields, which are externally supplied
constants, are omitted). -/
structure DocMeta where
  document_id : String
  filename : String
  total_pages : Nat
  total_chunks : Nat
deriving DecidableEq, Repr

/-- `DocumentIndexer.index_document` (non-CSV path): extraction is given as
the page map `pages`; raises when zero pages were extracted; chunks; raises
when zero chunks were produced; embeds all chunk texts in one batch
(`embed` is the external embedding service) and stores them via
`VectorStoreV2.add_chunks`.  The outer `Option` is `none` exactly when the
chunking loop diverges. -/
def index_document {V : Type} (cs ov margin fuel : Nat) (norm : V → V)
    (embed : List (List Char) → List V) (docId filename : String)
    (pages : List (Nat × List Char)) (s : V2State V) :
    Option (Except String DocMeta × V2State V) :=
  if pages.length = 0 then
    some (.error ("Could not extract any pages from " ++ filename), s)
  else
    match chunk_document cs ov margin fuel docId filename pages with
    | none => none
    | some chunks =>
      if chunks.length = 0 then
        some (.error ("Could not create any chunks from " ++ filename), s)
      else
        match add_chunks norm s chunks (embed (chunks.map (·.text))) with
        | .error msg => some (.error msg, s)
        | .ok s' =>
          some (.ok ⟨docId, filename, pages.length, chunks.length⟩, s')

/-- One extracted CSV row (`DocumentExtractor.extract_csv_rows` output). -/
structure CsvRow where
  row_number : Nat
  text : List Char
  columns : List String
  vals : List String
deriving DecidableEq, Repr

/-- Python `range(0, stop, step)` for `step ≥ 1` (the only values the
indexer passes; `range` with step `0` raises in Python).  The fuel `stop`
bounds the iteration count. -/
def pyRange (stop step : Nat) : List Nat :=
  go stop 0
where
  go : Nat → Nat → List Nat
    | 0, _ => []
    | fuel + 1, i => if i < stop then i :: go fuel (i + step) else []

/-- `TextChunker.chunk_csv_rows`: one chunk per row when
`rows_per_chunk = 1`, otherwise groups of `rows_per_chunk` rows joined with
newlines (chunk ids `{doc}_r{row}` resp. `{doc}_chunk{n}`). -/
def chunk_csv_rows (docId filename : String) (csvRows : List CsvRow)
    (rowsPerChunk : Nat) : List ChunkRow :=
  if rowsPerChunk = 1 then
    csvRows.map (fun r =>
      { chunk_id := docId ++ "_r" ++ toString r.row_number,
        document_id := docId, filename := filename,
        page_number := r.row_number, chunk_index := 0, text := r.text })
  else
    (pyRange csvRows.length rowsPerChunk).map (fun i =>
      { chunk_id := docId ++ "_chunk" ++ toString (i / rowsPerChunk + 1),
        document_id := docId, filename := filename,
        page_number := i / rowsPerChunk + 1, chunk_index := 0,
        text := List.intercalate ['\n']
          (((csvRows.drop i).take rowsPerChunk).map (·.text)) })

/-- `DocumentIndexer._index_csv_rows`: raises when zero rows were extracted,
otherwise chunks the rows, embeds, and stores. -/
def index_csv_rows {V : Type} (rowsPerChunk : Nat) (norm : V → V)
    (embed : List (List Char) → List V) (docId filename : String)
    (csvRows : List CsvRow) (s : V2State V) :
    Except String DocMeta × V2State V :=
  if csvRows.length = 0 then
    (.error ("Could not extract any rows from " ++ filename), s)
  else
    match add_chunks norm s (chunk_csv_rows docId filename csvRows rowsPerChunk)
        (embed ((chunk_csv_rows docId filename csvRows rowsPerChunk).map (·.text))) with
    | .error msg => (.error msg, s)
    | .ok s' =>
      (.ok ⟨docId, filename, csvRows.length,
            (chunk_csv_rows docId filename csvRows rowsPerChunk).length⟩, s')

/-! ## Search orchestration (`DocumentIndexer.search`)

The vector-store search, the LLM rerank call and the LLM synthesis call are
abstract parameters; a `.error` value models the Python call raising. -/

/-- The candidate-pool size: `min(top_k * 5, 50)` when an active reranker
will reorder results, else `top_k`. -/
def rerank_fetch_k (topK : Nat) : Nat := min (topK * 5) 50

/-- The rerank post-processing: on a raised rerank call fall back to the
original similarity order truncated to `top_k`; on success keep exactly the
returned indices that are in range (falling back to the truncated original
order only when none are). -/
def apply_rerank {R : Type} (results : List R) (topK : Nat) :
    Except String (List Int) → List R
  | .error _ => results.take topK
  | .ok idxs =>
    if idxs.filter (fun i => 0 ≤ i ∧ i < (results.length : Int)) = [] then
      results.take topK
    else
      (idxs.filter (fun i => 0 ≤ i ∧ i < (results.length : Int))).filterMap
        (fun i => results.get? i.toNat)

/-- The `fetch_k` computation of `DocumentIndexer.search`. -/
def search_fetch_k (ai_active rerank_opt : Bool) (topK : Nat) : Nat :=
  if ai_active && rerank_opt then rerank_fetch_k topK else topK

/-- The result list of `DocumentIndexer.search`: fetch `fetch_k` candidates
from the vector store, then either rerank them (when an active reranker is
configured and the pool is nonempty) or truncate to `top_k`. -/
def search_results {R : Type} (store_search : Nat → List R)
    (ai_active rerank_opt : Bool)
    (rerank_call : List R → Except String (List Int)) (topK : Nat) : List R :=
  if ai_active && rerank_opt
      && !(store_search (search_fetch_k ai_active rerank_opt topK)).isEmpty then
    apply_rerank (store_search (search_fetch_k ai_active rerank_opt topK)) topK
      (rerank_call (store_search (search_fetch_k ai_active rerank_opt topK)))
  else (store_search (search_fetch_k ai_active rerank_opt topK)).take topK

/-- `DocumentIndexer.search`: over-fetch when reranking, rerank (tolerating
failure), then optionally synthesize (tolerating failure, never touching the
result list).  Returns the result list and the optional synthesis text. -/
def search_orchestrate {R : Type} (store_search : Nat → List R)
    (ai_active rerank_opt synth_opt : Bool)
    (rerank_call : List R → Except String (List Int))
    (synth_call : List R → Except String String) (topK : Nat) :
    List R × Option String :=
  (search_results store_search ai_active rerank_opt rerank_call topK,
   if ai_active && synth_opt
       && !(search_results store_search ai_active rerank_opt rerank_call topK).isEmpty then
     match synth_call (search_results store_search ai_active rerank_opt rerank_call topK) with
     | .ok t => some t
     | .error _ => none
   else none)

/-! ## Helper lemmas: chunker -/

theorem mem_dropWhile_of_neg {p : Char → Bool} {x : Char} {l : List Char}
    (hx : x ∈ l) (hpx : p x = false) : x ∈ l.dropWhile p := by
  induction l with
  | nil => cases hx
  | cons a t ih =>
    rw [List.dropWhile_cons]
    by_cases hpa : p a = true
    · rw [if_pos hpa]
      rcases List.mem_cons.mp hx with h | h
      · subst h; rw [hpa] at hpx; cases hpx
      · exact ih h
    · rw [if_neg hpa]; exact hx

theorem mem_pyStrip {x : Char} {l : List Char} (hx : x ∈ l)
    (hpx : isPySpace x = false) : x ∈ pyStrip l := by
  unfold pyStrip List.rdropWhile
  rw [List.mem_reverse]
  exact mem_dropWhile_of_neg
    (List.mem_reverse.mpr (mem_dropWhile_of_neg hx hpx)) hpx

theorem pyStrip_eq_nil_all_space {l : List Char} (h : pyStrip l = []) :
    ∀ x ∈ l, isPySpace x = true := by
  intro x hx
  by_contra hfalse
  have hpx : isPySpace x = false := by
    cases hb : isPySpace x
    · rfl
    · exact absurd hb hfalse
  have hmem := mem_pyStrip hx hpx
  rw [h] at hmem
  cases hmem

theorem pySlice_substring (l : List Char) (s e : Nat) : pySlice l s e <:+: l :=
  ⟨(l.take e).take s, l.drop e, by
    show (l.take e).take s ++ pySlice l s e ++ l.drop e = l
    rw [pySlice, List.take_append_drop, List.take_append_drop]⟩

theorem pyStrip_infix_self (l : List Char) : pyStrip l <:+: l := by
  have h1 : l.dropWhile isPySpace <:+ l := List.dropWhile_suffix _
  have h2 : pyStrip l <+: l.dropWhile isPySpace := List.rdropWhile_prefix _ _
  exact h2.isInfix.trans h1.isInfix

theorem get_pySlice {l : List Char} {s e i : Nat} (hi : i < l.length)
    (_h1 : s ≤ i) (_h2 : i < e) (hlen : i - s < (pySlice l s e).length) :
    (pySlice l s e).get ⟨i - s, hlen⟩ = l.get ⟨i, hi⟩ := by
  simp only [pySlice, List.get_eq_getElem, List.getElem_drop, List.getElem_take]
  congr 1
  omega

theorem mem_pySlice {l : List Char} {s e i : Nat} (hi : i < l.length)
    (h1 : s ≤ i) (h2 : i < e) : l.get ⟨i, hi⟩ ∈ pySlice l s e := by
  have hlen : i - s < (pySlice l s e).length := by
    rw [pySlice, List.length_drop, List.length_take]; omega
  rw [← get_pySlice hi h1 h2 hlen]
  exact List.get_mem _ _ _

theorem dropWhile_spec (p : Char → Bool) :
    ∀ l : List Char, ∃ k, k ≤ l.length ∧ l.dropWhile p = l.drop k ∧
      ∀ j, ∀ hj : j < l.length, j < k → p (l.get ⟨j, hj⟩) = true := by
  intro l
  induction l with
  | nil =>
    exact ⟨0, Nat.le_refl 0, rfl, fun j _ hj0 => absurd hj0 (Nat.not_lt_zero j)⟩
  | cons a t ih =>
    by_cases hpa : p a = true
    · obtain ⟨k, hk, hdw, hdrop⟩ := ih
      refine ⟨k + 1, Nat.succ_le_succ hk, ?_, ?_⟩
      · rw [List.dropWhile_cons, if_pos hpa, List.drop_succ_cons]
        exact hdw
      · intro j hj hjk
        cases j with
        | zero => exact hpa
        | succ j' =>
          exact hdrop j' (Nat.lt_of_succ_lt_succ hj) (Nat.lt_of_succ_lt_succ hjk)
    · exact ⟨0, Nat.zero_le _,
        by rw [List.dropWhile_cons, if_neg hpa, List.drop_zero],
        fun j _ hj0 => absurd hj0 (Nat.not_lt_zero j)⟩

theorem rdropWhile_spec (p : Char → Bool) :
    ∀ m : List Char, ∃ k, k ≤ m.length ∧ m.rdropWhile p = m.take k ∧
      ∀ j, ∀ hj : j < m.length, k ≤ j → p (m.get ⟨j, hj⟩) = true := by
  intro m
  induction m using List.reverseRecOn with
  | nil =>
    exact ⟨0, Nat.le_refl 0, rfl, fun j hj _ => absurd hj (Nat.not_lt_zero j)⟩
  | append_singleton l a ih =>
    by_cases hpa : p a = true
    · obtain ⟨k, hk, hr, hkeep⟩ := ih
      refine ⟨k, ?_, ?_, ?_⟩
      · rw [List.length_append]
        omega
      · rw [List.rdropWhile_concat_pos p l a hpa, hr,
          List.take_append_of_le_length hk]
      · intro j hj hkj
        rw [List.length_append, List.length_singleton] at hj
        by_cases hjl : j < l.length
        · have hkept := hkeep j hjl hkj
          simp only [List.get_eq_getElem] at hkept ⊢
          rw [List.getElem_append_left hjl]
          exact hkept
        · have hjeq : j = l.length := by omega
          subst hjeq
          simp only [List.get_eq_getElem]
          rw [List.getElem_concat_length l a _ rfl]
          exact hpa
    · refine ⟨(l ++ [a]).length, Nat.le_refl _, ?_, ?_⟩
      · rw [List.rdropWhile_concat_neg p l a hpa, List.take_length]
      · intro j hj hgej
        omega

theorem pyStrip_slice_spec (text : List Char) (s e : Nat)
    (hse : s ≤ min e text.length) :
    IsTrimmedWindow text (s, e) (pyStrip (pySlice text s e)) := by
  obtain ⟨k1, hk1, hdw, hdrop⟩ := dropWhile_spec isPySpace (pySlice text s e)
  obtain ⟨k2, hk2, hrd, hkeep⟩ := rdropWhile_spec isPySpace ((pySlice text s e).drop k1)
  have hLlen : (pySlice text s e).length = min e text.length - s := by
    rw [pySlice, List.length_drop, List.length_take]
  have hMlen : ((pySlice text s e).drop k1).length = (pySlice text s e).length - k1 := by
    rw [List.length_drop]
  have hk2' : k2 ≤ (pySlice text s e).length - k1 := hMlen ▸ hk2
  have harith : s + k1 + k2 ≤ min e text.length := by
    revert hse hLlen
    generalize min e text.length = m
    intro hse hLlen
    omega
  have he : s + k1 + k2 ≤ e := Nat.le_trans harith (Nat.min_le_left e text.length)
  show ∃ s' e', s ≤ s' ∧ s' ≤ e' ∧ e' ≤ min e text.length ∧
    pyStrip (pySlice text s e) = pySlice text s' e' ∧
    (∀ j, ∀ hj : j < text.length, s ≤ j → j < s' →
      isPySpace (text.get ⟨j, hj⟩) = true) ∧
    (∀ j, ∀ hj : j < text.length, e' ≤ j → j < e →
      isPySpace (text.get ⟨j, hj⟩) = true)
  refine ⟨s + k1, s + k1 + k2, Nat.le_add_right s k1, Nat.le_add_right _ k2,
    harith, ?_, ?_, ?_⟩
  · rw [pyStrip, hdw, hrd]
    rw [pySlice, pySlice, List.drop_drop, List.take_drop, List.take_take]
    rw [Nat.min_eq_left he]
  · intro j hj hsj hjlt
    have hjs : j - s < (pySlice text s e).length := by omega
    have hje : j < e := by omega
    have hsp := hdrop (j - s) hjs (by omega)
    rw [get_pySlice hj hsj hje hjs] at hsp
    exact hsp
  · intro j hj hge hjlt
    have hjmin : j < min e text.length := lt_min hjlt hj
    have hjM : j - s - k1 < ((pySlice text s e).drop k1).length := by
      rw [hMlen, hLlen]
      revert hjmin hLlen
      generalize min e text.length = m
      intro hjmin hLlen
      omega
    have hsp := hkeep (j - s - k1) hjM (by omega)
    have hjs : j - s < (pySlice text s e).length := by
      rw [hLlen]
      revert hjmin
      generalize min e text.length = m
      intro hjmin
      omega
    have hgetM : ((pySlice text s e).drop k1).get ⟨j - s - k1, hjM⟩
        = (pySlice text s e).get ⟨j - s, hjs⟩ := by
      simp only [List.get_eq_getElem, List.getElem_drop]
      congr 1
      omega
    rw [hgetM, get_pySlice hj (by omega) (by omega) hjs] at hsp
    exact hsp

theorem chunkLoop_acc_subset (cs ov margin : Nat) (text : List Char) :
    ∀ (fuel start : Nat) (acc ws : List (Nat × Nat)),
      chunkLoop cs ov margin text fuel start acc = some ws → acc ⊆ ws := by
  intro fuel
  induction fuel with
  | zero => intro start acc ws h; simp [chunkLoop] at h
  | succ n ih =>
    intro start acc ws h
    rw [chunkLoop] at h
    by_cases hlt : start < text.length
    · rw [if_pos hlt] at h
      have hsub := ih _ _ _ h
      intro x hx
      apply hsub
      unfold stepAcc
      by_cases hemp :
          pyStrip (pySlice text start (adjustEnd text start cs margin)) = []
      · rw [if_pos hemp]; exact hx
      · rw [if_neg hemp]; exact List.mem_append_left _ hx
    · rw [if_neg hlt] at h
      injection h with h
      subst h
      exact fun x hx => hx

theorem chunkLoop_cover (cs ov margin : Nat) (text : List Char) :
    ∀ (fuel start : Nat) (acc ws : List (Nat × Nat)),
      chunkLoop cs ov margin text fuel start acc = some ws →
      (∀ i : Nat, i < start → ∀ hi : i < text.length,
        isPySpace (text.get ⟨i, hi⟩) = false → ∃ w ∈ acc, w.1 ≤ i ∧ i < w.2) →
      ∀ i : Nat, ∀ hi : i < text.length,
        isPySpace (text.get ⟨i, hi⟩) = false → ∃ w ∈ ws, w.1 ≤ i ∧ i < w.2 := by
  intro fuel
  induction fuel with
  | zero => intro start acc ws h; simp [chunkLoop] at h
  | succ n ih =>
    intro start acc ws h hinv i hi hsp
    rw [chunkLoop] at h
    by_cases hlt : start < text.length
    · rw [if_pos hlt] at h
      refine ih _ _ _ h ?_ i hi hsp
      intro j hj hj' hjsp
      have hse : stepStart cs ov (adjustEnd text start cs margin)
          (stepAcc text start (adjustEnd text start cs margin) acc).length
            ≤ adjustEnd text start cs margin := by
        unfold stepStart
        split
        · exact Nat.le_refl _
        · exact Nat.sub_le _ _
      by_cases hcase : j < start
      · obtain ⟨w, hw, hw1, hw2⟩ := hinv j hcase hj' hjsp
        refine ⟨w, ?_, hw1, hw2⟩
        unfold stepAcc
        split
        · exact hw
        · exact List.mem_append_left _ hw
      · have hjs : start ≤ j := Nat.le_of_not_lt hcase
        have hje : j < adjustEnd text start cs margin := lt_of_lt_of_le hj hse
        by_cases hemp :
            pyStrip (pySlice text start (adjustEnd text start cs margin)) = []
        · have hmem : text.get ⟨j, hj'⟩
              ∈ pySlice text start (adjustEnd text start cs margin) :=
            mem_pySlice hj' hjs hje
          have hsp' := pyStrip_eq_nil_all_space hemp _ hmem
          rw [hjsp] at hsp'
          cases hsp'
        · refine ⟨(start, adjustEnd text start cs margin), ?_, hjs, hje⟩
          unfold stepAcc
          rw [if_neg hemp]
          exact List.mem_append_right _ (List.mem_singleton.mpr rfl)
    · rw [if_neg hlt] at h
      injection h with h
      subst h
      exact hinv i (lt_of_lt_of_le hi (Nat.le_of_not_lt hlt)) hi hsp

/-! ## C6: chunk concatenation reproduces the source text -/

theorem chunkLoop_emitted_nonempty (cs ov margin : Nat) (text : List Char) :
    ∀ (fuel start : Nat) (acc ws : List (Nat × Nat)),
      chunkLoop cs ov margin text fuel start acc = some ws →
      (∀ w ∈ acc, pyStrip (pySlice text w.1 w.2) ≠ []) →
      ∀ w ∈ ws, pyStrip (pySlice text w.1 w.2) ≠ [] := by
  intro fuel
  induction fuel with
  | zero => intro start acc ws h; simp [chunkLoop] at h
  | succ n ih =>
    intro start acc ws h hacc
    rw [chunkLoop] at h
    by_cases hlt : start < text.length
    · rw [if_pos hlt] at h
      refine ih _ _ _ h ?_
      intro w hw
      unfold stepAcc at hw
      by_cases hemp :
          pyStrip (pySlice text start (adjustEnd text start cs margin)) = []
      · rw [if_pos hemp] at hw
        exact hacc w hw
      · rw [if_neg hemp] at hw
        rcases List.mem_append.mp hw with h' | h'
        · exact hacc w h'
        · rw [List.mem_singleton] at h'
          subst h'
          exact hemp
    · rw [if_neg hlt] at h
      injection h with h
      subst h
      exact hacc

/-- C6 (confirmed): for every input text and every valid chunker
configuration (`chunk_overlap < chunk_size`), whenever `_chunk_text`
terminates there is a list of source windows, one per emitted chunk and in
chunk order, such that (a) the `k`-th chunk is the verbatim slice of the
`k`-th window with only whitespace trimmed at the window edges
(`IsTrimmedWindow`), (b) every non-whitespace position of the source lies
inside some window, and (c) every non-whitespace position of the source
lies, at its exact position, inside the retained slice of some emitted
chunk — so concatenating the chunks while accounting for the windows'
overlap regions reproduces the source exactly, and no characters are
dropped between consecutive chunks, modulo whitespace trimmed at chunk
boundaries. -/
theorem chunker_chunks_cover_source
    (cs ov margin fuel : Nat) (text : List Char) (cks : List (List Char))
    (_hvalid : chunkerValid cs ov)
    (hrun : chunk_text cs ov margin text fuel = some cks) :
    ∃ ws : List (Nat × Nat),
      ws.length = cks.length ∧
      (∀ k, ∀ hk : k < ws.length, ∀ hk' : k < cks.length,
        IsTrimmedWindow text (ws.get ⟨k, hk⟩) (cks.get ⟨k, hk'⟩)) ∧
      (∀ i, ∀ hi : i < text.length, isPySpace (text.get ⟨i, hi⟩) = false →
        ∃ k, ∃ hk : k < ws.length,
          (ws.get ⟨k, hk⟩).1 ≤ i ∧ i < (ws.get ⟨k, hk⟩).2) ∧
      (∀ i, ∀ hi : i < text.length, isPySpace (text.get ⟨i, hi⟩) = false →
        ∃ k, ∃ hk' : k < cks.length, ∃ s' e',
          cks.get ⟨k, hk'⟩ = pySlice text s' e' ∧ s' ≤ i ∧ i < e') := by
  rw [chunk_text] at hrun
  by_cases hlen : text.length ≤ cs
  · rw [if_pos hlen] at hrun
    injection hrun with hrun
    subst hrun
    have htext : text = pySlice text 0 text.length := by
      rw [pySlice, List.take_length, List.drop_zero]
    refine ⟨[(0, text.length)], rfl, ?_, ?_, ?_⟩
    · intro k hk hk'
      have hk0 : k = 0 := Nat.lt_one_iff.mp (by simpa using hk)
      subst hk0
      refine ⟨0, text.length, Nat.le_refl 0, Nat.zero_le _, by simp, htext, ?_, ?_⟩
      · intro j hj _ hj0
        exact absurd hj0 (Nat.not_lt_zero j)
      · intro j hj hge hlt2
        omega
    · intro i hi _
      exact ⟨0, by simp, Nat.zero_le i, by simpa using hi⟩
    · intro i hi _
      exact ⟨0, by simp, 0, text.length, htext, Nat.zero_le i, hi⟩
  · rw [if_neg hlen] at hrun
    obtain ⟨ws, hws, hmap⟩ := Option.map_eq_some'.mp hrun
    subst hmap
    have hne := chunkLoop_emitted_nonempty cs ov margin text fuel 0 [] ws hws
      (fun w hw => absurd hw (List.not_mem_nil w))
    have hcover := chunkLoop_cover cs ov margin text fuel 0 [] ws hws
      (fun j hj _ _ => absurd hj (Nat.not_lt_zero j))
    have htrim : ∀ k, ∀ hk : k < ws.length,
        IsTrimmedWindow text (ws.get ⟨k, hk⟩)
          (pyStrip (pySlice text (ws.get ⟨k, hk⟩).1 (ws.get ⟨k, hk⟩).2)) := by
      intro k hk
      apply pyStrip_slice_spec
      have hw := hne (ws.get ⟨k, hk⟩) (List.get_mem ws k hk)
      have hslice : pySlice text (ws.get ⟨k, hk⟩).1 (ws.get ⟨k, hk⟩).2 ≠ [] := by
        intro hnil
        apply hw
        rw [hnil]
        rfl
      have hpos := List.length_pos.mpr hslice
      rw [pySlice, List.length_drop, List.length_take] at hpos
      omega
    have hget : ∀ k, ∀ hk : k < ws.length,
        ∀ hk' : k < (ws.map (fun w => pyStrip (pySlice text w.1 w.2))).length,
        (ws.map (fun w => pyStrip (pySlice text w.1 w.2))).get ⟨k, hk'⟩
          = pyStrip (pySlice text (ws.get ⟨k, hk⟩).1 (ws.get ⟨k, hk⟩).2) := by
      intro k hk hk'
      simp [List.get_eq_getElem, List.getElem_map]
    refine ⟨ws, (List.length_map _ _).symm, ?_, ?_, ?_⟩
    · intro k hk hk'
      rw [hget k hk hk']
      exact htrim k hk
    · intro i hi hsp
      obtain ⟨w, hw, h1, h2⟩ := hcover i hi hsp
      obtain ⟨⟨k, hk⟩, hkw⟩ := List.mem_iff_get.mp hw
      refine ⟨k, hk, ?_, ?_⟩
      · rw [hkw]
        exact h1
      · rw [hkw]
        exact h2
    · intro i hi hsp
      obtain ⟨w, hw, h1, h2⟩ := hcover i hi hsp
      obtain ⟨⟨k, hk⟩, hkw⟩ := List.mem_iff_get.mp hw
      have hk' : k < (ws.map (fun w => pyStrip (pySlice text w.1 w.2))).length := by
        rw [List.length_map]
        exact hk
      obtain ⟨s', e', _, _, _, hceq, hleft, hright⟩ := htrim k hk
      have hws1 : (ws.get ⟨k, hk⟩).1 ≤ i := by rw [hkw]; exact h1
      have hws2 : i < (ws.get ⟨k, hk⟩).2 := by rw [hkw]; exact h2
      have his' : s' ≤ i := by
        by_contra hcon
        have hspace := hleft i hi hws1 (Nat.lt_of_not_le hcon)
        rw [hsp] at hspace
        cases hspace
      have hie' : i < e' := by
        by_contra hcon
        have hspace := hright i hi (Nat.le_of_not_lt hcon) hws2
        rw [hsp] at hspace
        cases hspace
      exact ⟨k, hk', s', e', (hget k hk hk').trans hceq, his', hie'⟩

/-- C6 witness: a concrete run (`chunk_size=20, chunk_overlap=5,
margin=int(20*0.2)=4`) on a three-sentence text producing four chunks, with
the theorem's window decomposition and positional coverage instantiated. -/
theorem chunker_chunks_cover_source_witness :
    ∃ ws : List (Nat × Nat),
      ws.length = [("One sentence. Anothe".toList), ("nother one here.".toList),
          ("ere. And a third".toList), ("hird sentence.".toList)].length ∧
      (∀ k, ∀ hk : k < ws.length,
        ∀ hk' : k < [("One sentence. Anothe".toList), ("nother one here.".toList),
            ("ere. And a third".toList), ("hird sentence.".toList)].length,
        IsTrimmedWindow "One sentence. Another one here. And a third sentence.".toList
          (ws.get ⟨k, hk⟩)
          ([("One sentence. Anothe".toList), ("nother one here.".toList),
            ("ere. And a third".toList), ("hird sentence.".toList)].get ⟨k, hk'⟩)) ∧
      (∀ i, ∀ hi : i < "One sentence. Another one here. And a third sentence.".toList.length,
        isPySpace ("One sentence. Another one here. And a third sentence.".toList.get
            ⟨i, hi⟩) = false →
        ∃ k, ∃ hk : k < ws.length,
          (ws.get ⟨k, hk⟩).1 ≤ i ∧ i < (ws.get ⟨k, hk⟩).2) ∧
      (∀ i, ∀ hi : i < "One sentence. Another one here. And a third sentence.".toList.length,
        isPySpace ("One sentence. Another one here. And a third sentence.".toList.get
            ⟨i, hi⟩) = false →
        ∃ k, ∃ hk' : k < [("One sentence. Anothe".toList), ("nother one here.".toList),
            ("ere. And a third".toList), ("hird sentence.".toList)].length,
          ∃ s' e',
            [("One sentence. Anothe".toList), ("nother one here.".toList),
              ("ere. And a third".toList), ("hird sentence.".toList)].get ⟨k, hk'⟩
              = pySlice "One sentence. Another one here. And a third sentence.".toList s' e'
              ∧ s' ≤ i ∧ i < e') :=
  chunker_chunks_cover_source 20 5 4 50
    "One sentence. Another one here. And a third sentence.".toList
    [("One sentence. Anothe".toList), ("nother one here.".toList),
     ("ere. And a third".toList), ("hird sentence.".toList)]
    (by unfold chunkerValid; decide) (by decide)

/-! ## C7: the chunking loop need not terminate -/

/-- On `badChunkText` with `chunk_size=10, chunk_overlap=9`, the window end
is pulled back to the `"\n"` at index 8 (`end = 9`), the slide
`start = end - overlap` returns to `0`, and the progress guard
`start <= end - chunk_size` (i.e. `0 ≤ 9 - 10`) does not fire, so the loop
state repeats forever. -/
theorem chunkLoop_stuck : ∀ (fuel : Nat) (acc : List (Nat × Nat)),
    chunkLoop 10 9 2 badChunkText fuel 0 acc = none := by
  intro fuel
  induction fuel with
  | zero => intro acc; rfl
  | succ n ih =>
    intro acc
    rw [chunkLoop]
    rw [if_pos (by decide : (0 : Nat) < badChunkText.length)]
    have he : adjustEnd badChunkText 0 10 2 = 9 := by decide
    have hacc : stepAcc badChunkText 0 (adjustEnd badChunkText 0 10 2) acc
        = acc ++ [(0, 9)] := by
      rw [he]
      unfold stepAcc
      rw [if_neg (by decide : ¬(pyStrip (pySlice badChunkText 0 9) = []))]
    have hstart : stepStart 10 9 (adjustEnd badChunkText 0 10 2)
        (acc ++ [(0, 9)]).length = 0 := by
      rw [he]
      unfold stepStart
      rw [if_neg]
      intro hcon
      omega
    rw [hacc, hstart]
    exact ih (acc ++ [(0, 9)])

/-- C7 (code_bug): the chunker constructor accepts
`chunk_size=10, chunk_overlap=9` (overlap < size), yet on the 13-character
input `"abcdefgh\nabcd"` the `_chunk_text` loop never terminates — the
model returns `none` for every fuel.  The margin `2` is `int(10 * 0.2)` as
computed by Python.  This contradicts the source's own guard comments
("Prevent infinite loop", "Ensure we're making progress"): that guard
compares `start <= end - chunk_size`, which can never hold when
`overlap < chunk_size`. -/
theorem chunker_infinite_loop :
    chunkerValid 10 9 ∧ ∀ fuel : Nat, chunk_text 10 9 2 badChunkText fuel = none := by
  constructor
  · exact (by decide : (9 : Nat) < 10)
  · intro fuel
    rw [chunk_text]
    rw [if_neg (by decide : ¬(badChunkText.length ≤ 10))]
    rw [chunkLoop_stuck fuel []]
    rfl

/-! ## Helper lemmas: metadata store (`INSERT OR REPLACE` semantics) -/

theorem ids_insert_or_replace (rows : List ChunkRow) (c : ChunkRow) :
    (insert_or_replace_chunk rows c).map ChunkRow.chunk_id
      = ((rows.map ChunkRow.chunk_id).filter (fun i => i ≠ c.chunk_id))
        ++ [c.chunk_id] := by
  unfold insert_or_replace_chunk
  rw [List.map_append]
  congr 1
  induction rows with
  | nil => rfl
  | cons r rest ih =>
    by_cases hr : r.chunk_id = c.chunk_id
    · simp [List.filter_cons, hr]
      simpa using ih
    · simp [List.filter_cons, hr]
      simpa using ih

theorem mem_ids_insert_or_replace {rows : List ChunkRow} {a : String}
    (c : ChunkRow) (ha : a ∈ rows.map ChunkRow.chunk_id) :
    a ∈ (insert_or_replace_chunk rows c).map ChunkRow.chunk_id := by
  rw [ids_insert_or_replace]
  by_cases hac : a = c.chunk_id
  · exact List.mem_append_right _ (List.mem_singleton.mpr hac)
  · refine List.mem_append_left _ (List.mem_filter.mpr ⟨ha, ?_⟩)
    simpa using hac

theorem nodup_ids_insert_or_replace {rows : List ChunkRow} (c : ChunkRow)
    (h : (rows.map ChunkRow.chunk_id).Nodup) :
    ((insert_or_replace_chunk rows c).map ChunkRow.chunk_id).Nodup := by
  rw [ids_insert_or_replace]
  apply List.Nodup.append (h.filter _) (List.nodup_singleton _)
  intro a haf has
  rw [List.mem_singleton] at has
  have := List.of_mem_filter haf
  simp [has] at this

theorem length_insert_or_replace_of_mem {rows : List ChunkRow} {c : ChunkRow}
    (hnd : (rows.map ChunkRow.chunk_id).Nodup)
    (hm : c.chunk_id ∈ rows.map ChunkRow.chunk_id) :
    (insert_or_replace_chunk rows c).length = rows.length := by
  unfold insert_or_replace_chunk
  rw [List.length_append, List.length_singleton]
  induction rows with
  | nil => cases hm
  | cons r rest ih =>
    rw [List.map_cons, List.nodup_cons] at hnd
    rw [List.filter_cons]
    by_cases hr : r.chunk_id = c.chunk_id
    · have hnot : ¬ decide (r.chunk_id ≠ c.chunk_id) = true := by simp [hr]
      rw [if_neg hnot]
      have hrest : rest.filter (fun r' => r'.chunk_id ≠ c.chunk_id) = rest := by
        apply List.filter_eq_self.mpr
        intro r' hr'
        have : r'.chunk_id ∈ rest.map ChunkRow.chunk_id := List.mem_map_of_mem _ hr'
        simp only [ne_eq, decide_eq_true_eq]
        intro hcon
        exact hnd.1 (by rw [hr, ← hcon]; exact this)
      rw [hrest, List.length_cons]
    · have hyes : decide (r.chunk_id ≠ c.chunk_id) = true := by simp [hr]
      rw [if_pos hyes]
      have hm' : c.chunk_id ∈ rest.map ChunkRow.chunk_id := by
        rcases List.mem_cons.mp hm with h | h
        · exact absurd h.symm hr
        · exact h
      have := ih hnd.2 hm'
      simp only [List.length_cons]
      omega

theorem length_insert_or_replace_le (rows : List ChunkRow) (c : ChunkRow) :
    (insert_or_replace_chunk rows c).length ≤ rows.length + 1 := by
  unfold insert_or_replace_chunk
  rw [List.length_append, List.length_singleton]
  exact Nat.add_le_add_right (List.length_filter_le _ _) 1

theorem meta_add_chunks_length_le :
    ∀ (chunks rows : List ChunkRow),
      (meta_add_chunks rows chunks).length ≤ rows.length + chunks.length := by
  intro chunks
  induction chunks with
  | nil => intro rows; exact Nat.le_of_eq rfl
  | cons c cs ih =>
    intro rows
    have h1 := ih (insert_or_replace_chunk rows c)
    have h2 := length_insert_or_replace_le rows c
    calc (meta_add_chunks rows (c :: cs)).length
        = (meta_add_chunks (insert_or_replace_chunk rows c) cs).length := rfl
      _ ≤ (insert_or_replace_chunk rows c).length + cs.length := h1
      _ ≤ rows.length + 1 + cs.length := Nat.add_le_add_right h2 _
      _ = rows.length + (c :: cs).length := by rw [List.length_cons]; omega

theorem meta_add_chunks_nodup :
    ∀ (chunks rows : List ChunkRow),
      (rows.map ChunkRow.chunk_id).Nodup →
      ((meta_add_chunks rows chunks).map ChunkRow.chunk_id).Nodup := by
  intro chunks
  induction chunks with
  | nil => intro rows h; exact h
  | cons c cs ih => intro rows h; exact ih _ (nodup_ids_insert_or_replace c h)

theorem meta_add_chunks_mem_ids_of_mem :
    ∀ (chunks rows : List ChunkRow) (a : String),
      a ∈ rows.map ChunkRow.chunk_id →
      a ∈ (meta_add_chunks rows chunks).map ChunkRow.chunk_id := by
  intro chunks
  induction chunks with
  | nil => intro rows a ha; exact ha
  | cons c cs ih => intro rows a ha; exact ih _ _ (mem_ids_insert_or_replace c ha)

theorem meta_add_chunks_mem_ids :
    ∀ (chunks rows : List ChunkRow) (c : ChunkRow), c ∈ chunks →
      c.chunk_id ∈ (meta_add_chunks rows chunks).map ChunkRow.chunk_id := by
  intro chunks
  induction chunks with
  | nil => intro rows c hc; cases hc
  | cons d ds ih =>
    intro rows c hc
    rcases List.mem_cons.mp hc with h | h
    · subst h
      have hmem : c.chunk_id ∈ (insert_or_replace_chunk rows c).map ChunkRow.chunk_id := by
        rw [ids_insert_or_replace]
        exact List.mem_append_right _ (List.mem_singleton.mpr rfl)
      exact meta_add_chunks_mem_ids_of_mem ds (insert_or_replace_chunk rows c) _ hmem
    · exact ih _ _ h

theorem meta_add_chunks_length_of_mem :
    ∀ (chunks rows : List ChunkRow),
      (rows.map ChunkRow.chunk_id).Nodup →
      (∀ c ∈ chunks, c.chunk_id ∈ rows.map ChunkRow.chunk_id) →
      (meta_add_chunks rows chunks).length = rows.length := by
  intro chunks
  induction chunks with
  | nil => intro rows _ _; rfl
  | cons c cs ih =>
    intro rows hnd hmem
    have hc := hmem c (List.mem_cons_self c cs)
    calc (meta_add_chunks rows (c :: cs)).length
        = (meta_add_chunks (insert_or_replace_chunk rows c) cs).length := rfl
      _ = (insert_or_replace_chunk rows c).length := by
          apply ih _ (nodup_ids_insert_or_replace c hnd)
          intro d hd
          exact mem_ids_insert_or_replace c (hmem d (List.mem_cons_of_mem c hd))
      _ = rows.length := length_insert_or_replace_of_mem hnd hc

/-! ## C1: write order inside the consistency layer -/

/-- C1 counterexample: in `VectorStoreV2.add_chunks` (and identically in
`VectorStore.add_chunks`) the FAISS append happens *before* the metadata
append.  Adding one chunk to an empty (synced) store passes through the
intermediate state `⟨[7], []⟩`, whose vector-index count `1` exceeds its
metadata count `0` — refuting "at every intermediate point the metadata
count is greater than or equal to the vector-index count". -/
theorem add_chunks_metadata_first_counterexample :
    add_chunks_trace (V := Nat) id ⟨[], []⟩
        [⟨"doc_p1_c0", "doc", "a.txt", 1, 0, ['h', 'i']⟩] [7]
      = .ok [⟨[], []⟩, ⟨[7], []⟩,
             ⟨[7], [⟨"doc_p1_c0", "doc", "a.txt", 1, 0, ['h', 'i']⟩]⟩] ∧
    ¬ (∀ st ∈ [(⟨[], []⟩ : V2State Nat), ⟨[7], []⟩,
          ⟨[7], [⟨"doc_p1_c0", "doc", "a.txt", 1, 0, ['h', 'i']⟩]⟩],
        st.faiss.length ≤ st.metaRows.length) := by
  constructor
  · rfl
  · intro h
    have := h ⟨[7], []⟩ (by simp)
    simp at this

/-- C1 (corrected): the claim's write order is reversed in the source —
`add_chunks` validates `len(chunks) == len(embeddings)`, then appends the
normalized vectors to the FAISS index, then appends to the metadata store.
Hence the *vector-index* count is greater than or equal to the metadata
count at every intermediate point of the operation (a failure between the
two writes leaves vectors ahead, never metadata ahead), provided the store
starts with metadata not ahead. -/
theorem add_chunks_vectors_never_behind {V : Type} (norm : V → V) (s : V2State V)
    (chunks : List ChunkRow) (embeddings : List V) (states : List (V2State V))
    (hinv : s.metaRows.length ≤ s.faiss.length)
    (htr : add_chunks_trace norm s chunks embeddings = .ok states) :
    ∀ st ∈ states, st.metaRows.length ≤ st.faiss.length := by
  unfold add_chunks_trace at htr
  by_cases hlen : chunks.length ≠ embeddings.length
  · rw [if_pos hlen] at htr
    simp at htr
  · rw [if_neg hlen] at htr
    push_neg at hlen
    by_cases hz : chunks.length = 0
    · rw [if_pos hz] at htr
      injection htr with htr
      subst htr
      intro st hst
      rw [List.mem_singleton] at hst
      subst hst
      exact hinv
    · rw [if_neg hz] at htr
      injection htr with htr
      subst htr
      intro st hst
      have hle := meta_add_chunks_length_le chunks s.metaRows
      simp only [List.mem_cons, List.mem_singleton, List.not_mem_nil, or_false] at hst
      rcases hst with h | h | h
      · subst h
        exact hinv
      · subst h
        simp only [List.length_append, List.length_map]
        omega
      · subst h
        simp only [List.length_append, List.length_map]
        omega

/-- C1 witness: the amended theorem applied to the concrete one-chunk add
used in the counterexample, evaluated at the intermediate state after the
FAISS write. -/
theorem add_chunks_vectors_never_behind_witness :
    (⟨[7], []⟩ : V2State Nat).metaRows.length ≤ (⟨[7], []⟩ : V2State Nat).faiss.length :=
  add_chunks_vectors_never_behind id ⟨[], []⟩
    [⟨"doc_p1_c0", "doc", "a.txt", 1, 0, ['h', 'i']⟩] [7]
    [⟨[], []⟩, ⟨[7], []⟩, ⟨[7], [⟨"doc_p1_c0", "doc", "a.txt", 1, 0, ['h', 'i']⟩]⟩]
    (Nat.le_refl 0) rfl ⟨[7], []⟩ (by simp)

/-! ## C5: re-ingesting identical content duplicates vectors -/

/-- C5 (confirmed): the document id is a pure function of the file bytes
(byte-identical content yields the same id); re-running `add_chunks` with
the same chunk batch leaves the metadata chunk count unchanged (each
`INSERT OR REPLACE` replaces the row with the same UNIQUE `chunk_id`) while
the FAISS index, being append-only, grows by the batch size — so after
re-ingesting a document into a previously synced store the index count
strictly exceeds the metadata count. -/
theorem reingest_duplicates_vectors {V : Type} (sha256hex : List UInt8 → String)
    (bytes1 bytes2 : List UInt8) (norm : V → V) (s s1 s2 : V2State V)
    (chunks : List ChunkRow) (embeddings : List V)
    (hwf : (s.metaRows.map ChunkRow.chunk_id).Nodup)
    (hsync : s.faiss.length = s.metaRows.length)
    (hne : chunks ≠ [])
    (h1 : add_chunks norm s chunks embeddings = .ok s1)
    (h2 : add_chunks norm s1 chunks embeddings = .ok s2) :
    (bytes1 = bytes2 →
      generate_document_id sha256hex bytes1 = generate_document_id sha256hex bytes2) ∧
    s2.metaRows.length = s1.metaRows.length ∧
    s2.faiss.length = s1.faiss.length + chunks.length ∧
    s2.metaRows.length < s2.faiss.length := by
  unfold add_chunks at h1 h2
  by_cases hlen : chunks.length ≠ embeddings.length
  · rw [if_pos hlen] at h1
    simp at h1
  · rw [if_neg hlen] at h1 h2
    push_neg at hlen
    have hz : ¬(chunks.length = 0) := by
      intro h
      exact hne (List.length_eq_zero.mp h)
    rw [if_neg hz] at h1 h2
    injection h1 with h1
    injection h2 with h2
    subst h1
    subst h2
    have hmeta2 : (meta_add_chunks (meta_add_chunks s.metaRows chunks) chunks).length
        = (meta_add_chunks s.metaRows chunks).length := by
      apply meta_add_chunks_length_of_mem chunks _
        (meta_add_chunks_nodup chunks s.metaRows hwf)
      intro c hc
      exact meta_add_chunks_mem_ids chunks s.metaRows c hc
    have hmeta1 := meta_add_chunks_length_le chunks s.metaRows
    refine ⟨fun h => by rw [h], hmeta2, ?_, ?_⟩
    · simp only [List.length_append, List.length_map]
      omega
    · simp only [List.length_append, List.length_map]
      rw [hmeta2]
      omega

/-- C5 witness: re-adding the single-chunk batch of a document to an empty
store leaves one metadata row but two vectors. -/
theorem reingest_duplicates_vectors_witness :
    (([] : List UInt8) = ([] : List UInt8) →
      generate_document_id (fun _ => "") [] = generate_document_id (fun _ => "") []) ∧
    (⟨[3, 3], [⟨"d_p1_c0", "d", "b.txt", 1, 0, ['x']⟩]⟩ : V2State Nat).metaRows.length
      = (⟨[3], [⟨"d_p1_c0", "d", "b.txt", 1, 0, ['x']⟩]⟩ : V2State Nat).metaRows.length ∧
    (⟨[3, 3], [⟨"d_p1_c0", "d", "b.txt", 1, 0, ['x']⟩]⟩ : V2State Nat).faiss.length
      = (⟨[3], [⟨"d_p1_c0", "d", "b.txt", 1, 0, ['x']⟩]⟩ : V2State Nat).faiss.length
        + [(⟨"d_p1_c0", "d", "b.txt", 1, 0, ['x']⟩ : ChunkRow)].length ∧
    (⟨[3, 3], [⟨"d_p1_c0", "d", "b.txt", 1, 0, ['x']⟩]⟩ : V2State Nat).metaRows.length
      < (⟨[3, 3], [⟨"d_p1_c0", "d", "b.txt", 1, 0, ['x']⟩]⟩ : V2State Nat).faiss.length :=
  reingest_duplicates_vectors (fun _ => "") [] [] id
    ⟨[], []⟩ ⟨[3], [⟨"d_p1_c0", "d", "b.txt", 1, 0, ['x']⟩]⟩
    ⟨[3, 3], [⟨"d_p1_c0", "d", "b.txt", 1, 0, ['x']⟩]⟩
    [⟨"d_p1_c0", "d", "b.txt", 1, 0, ['x']⟩] [3]
    (by decide) rfl (by decide) rfl rfl

/-! ## Helper lemmas: diagnose -/

theorem diagnose_loaded_status (env : DiagnoseEnv) (fc mc : Nat) (info : DocTableInfo)
    (hie : env.index_file_exists = true)
    (hme : env.metadata_db_exists = true)
    (hfl : env.faiss_load = some fc)
    (hml : env.metadata_load = some (mc, info)) :
    (diagnose env).status =
      if fc = mc ∧ mc = embeddingsCount env then .synced else .out_of_sync := by
  unfold diagnose
  rw [hie, hme, hfl, hml]
  simp only [Bool.true_eq_false, if_false]
  by_cases hs : fc = mc ∧ mc = embeddingsCount env
  · rw [if_pos hs, if_pos hs]
  · rw [if_neg hs, if_neg hs]

/-! ## C2: diagnose status is determined by the three counts -/

/-- C2 (confirmed): when the index file and the metadata database both
exist and load successfully, `diagnose` returns status `synced` iff the
FAISS count, the metadata chunk count and the stored-embeddings-file count
are all equal, and any disagreement yields `out_of_sync` (no other status
is possible).  `diagnose` is a pure report over the loaded state — the
model performs no store mutation at all. -/
theorem diagnose_synced_iff_counts_agree (env : DiagnoseEnv) (fc mc : Nat)
    (info : DocTableInfo)
    (hie : env.index_file_exists = true)
    (hme : env.metadata_db_exists = true)
    (hfl : env.faiss_load = some fc)
    (hml : env.metadata_load = some (mc, info)) :
    ((diagnose env).status = .synced ↔ (fc = mc ∧ mc = embeddingsCount env)) ∧
    ((diagnose env).status = .synced ∨ (diagnose env).status = .out_of_sync) := by
  have h := diagnose_loaded_status env fc mc info hie hme hfl hml
  by_cases hs : fc = mc ∧ mc = embeddingsCount env
  · rw [h, if_pos hs]
    exact ⟨⟨fun _ => hs, fun _ => rfl⟩, Or.inl rfl⟩
  · rw [h, if_neg hs]
    refine ⟨⟨?_, ?_⟩, Or.inr rfl⟩
    · intro habs
      simp at habs
    · intro hcon
      exact absurd hcon hs

/-- C2 witness: a fully synced environment (all three counts `2`). -/
theorem diagnose_synced_iff_counts_agree_witness :
    ((diagnose ⟨true, true, some 2, true, some 2, some (2, ⟨1, 1, 0⟩)⟩).status = .synced
      ↔ ((2 : Nat) = 2
          ∧ 2 = embeddingsCount ⟨true, true, some 2, true, some 2, some (2, ⟨1, 1, 0⟩)⟩)) ∧
    ((diagnose ⟨true, true, some 2, true, some 2, some (2, ⟨1, 1, 0⟩)⟩).status = .synced
      ∨ (diagnose ⟨true, true, some 2, true, some 2, some (2, ⟨1, 1, 0⟩)⟩).status
          = .out_of_sync) :=
  diagnose_synced_iff_counts_agree
    ⟨true, true, some 2, true, some 2, some (2, ⟨1, 1, 0⟩)⟩ 2 2 ⟨1, 1, 0⟩ rfl rfl rfl rfl

/-! ## C3: truncate_to_metadata -/

/-- C3 counterexample: with index count `80`, metadata count `100` and the
raw embeddings file *missing*, `truncate_faiss_to_metadata` reports
`success = True` ("no truncation needed") — refuting "succeeds only when
the index count exceeds the metadata count and the raw embeddings file
exists", and the stores are left at `80 ≠ 100`, refuting "on success both
stores are left with exactly the metadata count". -/
theorem truncate_succeeds_without_excess_counterexample :
    (truncate_faiss_to_metadata (V := Nat) ⟨80, 100, none⟩).1.success = true ∧
    ¬ (100 < 80) ∧
    (truncate_faiss_to_metadata (V := Nat) ⟨80, 100, none⟩).2.embeddings_file = none ∧
    (truncate_faiss_to_metadata (V := Nat) ⟨80, 100, none⟩).2.faiss_count ≠ 100 :=
  ⟨rfl, by decide, rfl, by decide⟩

/-- C3 (corrected): `truncate_faiss_to_metadata` succeeds either trivially
(as an explicit no-op, leaving the stores untouched) when the index count
does not exceed the metadata count, or by actual truncation, which requires
the raw embeddings file to exist with at least the metadata count of
entries; when the embeddings file is missing or too short it returns an
explicit failure (`success = False` with an error message) and changes
nothing; and when an actual truncation happens both the index and the
embeddings file are left with exactly the metadata count of entries. -/
theorem truncate_to_metadata_behavior {V : Type} (env : TruncEnv V) :
    ((truncate_faiss_to_metadata env).1.success = true ↔
      (env.faiss_count ≤ env.metadata_count ∨
        ∃ embs, env.embeddings_file = some embs ∧ env.metadata_count ≤ embs.length)) ∧
    ((truncate_faiss_to_metadata env).1.success = false →
      ((truncate_faiss_to_metadata env).1.error_msg.isSome = true ∧
        (truncate_faiss_to_metadata env).2 = env)) ∧
    (env.metadata_count < env.faiss_count →
      (truncate_faiss_to_metadata env).1.success = true →
      ((truncate_faiss_to_metadata env).2.faiss_count = env.metadata_count ∧
        ∃ e, (truncate_faiss_to_metadata env).2.embeddings_file = some e ∧
          e.length = env.metadata_count)) := by
  by_cases hle : env.faiss_count ≤ env.metadata_count
  · have hc : truncate_faiss_to_metadata env
        = (⟨true, env.faiss_count, env.faiss_count, 0, none,
            some "FAISS index is not larger than metadata - no truncation needed"⟩, env) := by
      unfold truncate_faiss_to_metadata
      exact if_pos hle
    rw [hc]
    refine ⟨⟨fun _ => Or.inl hle, fun _ => rfl⟩, ?_, ?_⟩
    · intro h
      simp at h
    · intro hlt
      omega
  · cases hemb : env.embeddings_file with
    | none =>
      have hc : truncate_faiss_to_metadata env
          = (⟨false, env.faiss_count, 0, 0,
              some "Embeddings file not found - cannot truncate safely", none⟩, env) := by
        unfold truncate_faiss_to_metadata
        rw [if_neg hle, hemb]
      rw [hc]
      refine ⟨⟨?_, ?_⟩, fun _ => ⟨rfl, rfl⟩, ?_⟩
      · intro h
        simp at h
      · intro h
        rcases h with h | ⟨embs, heq, _⟩
        · exact absurd h hle
        · cases heq
      · intro _ h
        simp at h
    | some embs =>
      by_cases hshort : embs.length < env.metadata_count
      · have hc : truncate_faiss_to_metadata env
            = (⟨false, env.faiss_count, 0, 0,
                some ("Embeddings file has fewer entries (" ++ toString embs.length
                  ++ ") than metadata (" ++ toString env.metadata_count
                  ++ ") - cannot truncate safely"), none⟩, env) := by
          unfold truncate_faiss_to_metadata
          rw [if_neg hle, hemb]
          exact if_pos hshort
        rw [hc]
        refine ⟨⟨?_, ?_⟩, fun _ => ⟨rfl, rfl⟩, ?_⟩
        · intro h
          simp at h
        · intro h
          rcases h with h | ⟨e, heq, hlen⟩
          · exact absurd h hle
          · injection heq with heq
            subst heq
            omega
        · intro _ h
          simp at h
      · have hc : truncate_faiss_to_metadata env
            = (⟨true, env.faiss_count, (embs.take env.metadata_count).length,
                env.faiss_count - (embs.take env.metadata_count).length, none,
                some ("Truncated FAISS index from " ++ toString env.faiss_count
                  ++ " to " ++ toString (embs.take env.metadata_count).length
                  ++ " entries")⟩,
               ⟨(embs.take env.metadata_count).length, env.metadata_count,
                some (embs.take env.metadata_count)⟩) := by
          unfold truncate_faiss_to_metadata
          rw [if_neg hle, hemb]
          exact if_neg hshort
        rw [hc]
        refine ⟨⟨fun _ => Or.inr ⟨embs, rfl, Nat.le_of_not_lt hshort⟩, fun _ => rfl⟩,
          ?_, ?_⟩
        · intro h
          simp at h
        · intro _ _
          refine ⟨?_, embs.take env.metadata_count, rfl, ?_⟩
          · show (embs.take env.metadata_count).length = env.metadata_count
            rw [List.length_take]
            omega
          · rw [List.length_take]
            omega

/-- C3 witness: the spec scenario — index `120`, metadata `100`, a 120-row
embeddings file; the truncation succeeds and leaves both stores at `100`. -/
theorem truncate_to_metadata_behavior_witness :
    (truncate_faiss_to_metadata (V := Nat)
        ⟨120, 100, some (List.replicate 120 0)⟩).2.faiss_count = 100 ∧
    ∃ e, (truncate_faiss_to_metadata (V := Nat)
        ⟨120, 100, some (List.replicate 120 0)⟩).2.embeddings_file = some e ∧
      e.length = 100 :=
  (truncate_to_metadata_behavior ⟨120, 100, some (List.replicate 120 0)⟩).2.2
    (by decide) (by decide)

/-! ## C4: delete_document followed by diagnose -/

/-- A length split for the document-id filter used by `delete_document`. -/
theorem filter_doc_split (rows : List ChunkRow) (docId : String) :
    (rows.filter (fun r => r.document_id = docId)).length
      + (rows.filter (fun r => r.document_id ≠ docId)).length = rows.length := by
  induction rows with
  | nil => rfl
  | cons r rest ih =>
    by_cases h : r.document_id = docId
    · rw [List.filter_cons, List.filter_cons, if_pos (by simp [h]), if_neg (by simp [h])]
      simp only [List.length_cons]
      omega
    · rw [List.filter_cons, List.filter_cons, if_neg (by simp [h]), if_pos (by simp [h])]
      simp only [List.length_cons]
      omega

/-- C4 counterexample: a synced `VectorStoreV2` state with one document of
one chunk; after `delete_document` the FAISS vector remains while the
metadata row is gone, and `diagnose` reports `out_of_sync`, not `synced`. -/
theorem delete_then_diagnose_synced_counterexample :
    delete_document (V := Nat) ⟨[0], [⟨"d_p1_c0", "d", "c.txt", 1, 0, ['y']⟩]⟩ "d"
      = (1, ⟨[0], []⟩) ∧
    (diagnose (v2DiagnoseEnv
        (delete_document (V := Nat)
          ⟨[0], [⟨"d_p1_c0", "d", "c.txt", 1, 0, ['y']⟩]⟩ "d").2
        ⟨0, 0, 0⟩)).status = .out_of_sync ∧
    (diagnose (v2DiagnoseEnv
        (delete_document (V := Nat)
          ⟨[0], [⟨"d_p1_c0", "d", "c.txt", 1, 0, ['y']⟩]⟩ "d").2
        ⟨0, 0, 0⟩)).status ≠ .synced :=
  ⟨rfl, rfl, by decide⟩

/-- C4 (corrected): in the FAISS-backed `VectorStoreV2` (the store
`diagnose` inspects), `delete_document` removes only the metadata rows —
the FAISS vectors remain — so for every indexed document with at least one
chunk, `delete_document(id)` followed by `diagnose()` reports
`out_of_sync` (the index count exceeds the metadata count by exactly the
number of deleted chunks), not `synced`; no surviving metadata row (and
hence no search result, which is always built from a surviving row) refers
to the deleted document. -/
theorem delete_then_diagnose_out_of_sync {V : Type} (s : V2State V) (docId : String)
    (info : DocTableInfo)
    (hsync : s.faiss.length = s.metaRows.length)
    (hmem : ∃ r ∈ s.metaRows, r.document_id = docId) :
    0 < (delete_document s docId).1 ∧
    (delete_document s docId).2.faiss.length
      = (delete_document s docId).2.metaRows.length + (delete_document s docId).1 ∧
    (diagnose (v2DiagnoseEnv (delete_document s docId).2 info)).status = .out_of_sync ∧
    (∀ r ∈ (delete_document s docId).2.metaRows, r.document_id ≠ docId) := by
  obtain ⟨r0, hr0, hr0d⟩ := hmem
  have hpos : 0 < (s.metaRows.filter (fun r => r.document_id = docId)).length := by
    apply List.length_pos.mpr
    apply List.ne_nil_of_mem (a := r0)
    exact List.mem_filter.mpr ⟨hr0, by simp [hr0d]⟩
  have hsplit := filter_doc_split s.metaRows docId
  have hdel1 : (delete_document s docId).1
      = (s.metaRows.filter (fun r => r.document_id = docId)).length := rfl
  have hdel2 : (delete_document s docId).2.metaRows
      = s.metaRows.filter (fun r => r.document_id ≠ docId) := rfl
  have hdelf : (delete_document s docId).2.faiss = s.faiss := rfl
  refine ⟨hdel1 ▸ hpos, ?_, ?_, ?_⟩
  · rw [hdel1, hdel2, hdelf, hsync]
    omega
  · have hstat := diagnose_loaded_status
      (v2DiagnoseEnv (delete_document s docId).2 info)
      ((delete_document s docId).2.faiss.length)
      ((delete_document s docId).2.metaRows.length) info rfl rfl rfl rfl
    rw [hstat, if_neg]
    intro hcon
    have h1 := hcon.1
    rw [hdelf, hdel2, hsync] at h1
    omega
  · intro r hr
    rw [hdel2] at hr
    have := List.of_mem_filter hr
    simpa using this

/-- C4 witness: the amended theorem applied to the one-document state of
the counterexample. -/
theorem delete_then_diagnose_out_of_sync_witness :
    0 < (delete_document (V := Nat)
        ⟨[0], [⟨"d_p1_c0", "d", "c.txt", 1, 0, ['y']⟩]⟩ "d").1 ∧
    (delete_document (V := Nat)
        ⟨[0], [⟨"d_p1_c0", "d", "c.txt", 1, 0, ['y']⟩]⟩ "d").2.faiss.length
      = (delete_document (V := Nat)
          ⟨[0], [⟨"d_p1_c0", "d", "c.txt", 1, 0, ['y']⟩]⟩ "d").2.metaRows.length
        + (delete_document (V := Nat)
            ⟨[0], [⟨"d_p1_c0", "d", "c.txt", 1, 0, ['y']⟩]⟩ "d").1 ∧
    (diagnose (v2DiagnoseEnv
        (delete_document (V := Nat)
          ⟨[0], [⟨"d_p1_c0", "d", "c.txt", 1, 0, ['y']⟩]⟩ "d").2
        ⟨0, 0, 0⟩)).status = .out_of_sync ∧
    (∀ r ∈ (delete_document (V := Nat)
        ⟨[0], [⟨"d_p1_c0", "d", "c.txt", 1, 0, ['y']⟩]⟩ "d").2.metaRows,
      r.document_id ≠ "d") :=
  delete_then_diagnose_out_of_sync
    ⟨[0], [⟨"d_p1_c0", "d", "c.txt", 1, 0, ['y']⟩]⟩ "d" ⟨0, 0, 0⟩ rfl
    ⟨⟨"d_p1_c0", "d", "c.txt", 1, 0, ['y']⟩, by simp, rfl⟩

/-! ## C8: zero units / zero chunks are validation errors -/

/-- C8 (confirmed): `index_document` raises a validation error (and leaves
the store untouched) whenever extraction produced zero pages or chunking
produced zero chunks, and `_index_csv_rows` does the same when zero CSV
rows were extracted — empty input is never accepted as a successful
zero-chunk indexing. -/
theorem index_document_rejects_empty_input {V : Type} (cs ov margin fuel : Nat)
    (norm : V → V) (embed : List (List Char) → List V) (docId filename : String)
    (pages : List (Nat × List Char)) (csvRows : List CsvRow) (rowsPerChunk : Nat)
    (s : V2State V) :
    (pages.length = 0 →
      index_document cs ov margin fuel norm embed docId filename pages s
        = some (.error ("Could not extract any pages from " ++ filename), s)) ∧
    (∀ chunks, pages.length ≠ 0 →
      chunk_document cs ov margin fuel docId filename pages = some chunks →
      chunks.length = 0 →
      index_document cs ov margin fuel norm embed docId filename pages s
        = some (.error ("Could not create any chunks from " ++ filename), s)) ∧
    (csvRows.length = 0 →
      index_csv_rows rowsPerChunk norm embed docId filename csvRows s
        = (.error ("Could not extract any rows from " ++ filename), s)) := by
  refine ⟨?_, ?_, ?_⟩
  · intro h
    unfold index_document
    rw [if_pos h]
  · intro chunks hp hch hz
    unfold index_document
    rw [if_neg hp, hch]
    exact if_pos hz
  · intro h
    unfold index_csv_rows
    rw [if_pos h]

/-- C8 witness: indexing a document whose extraction produced zero pages
fails with the validation error and an unchanged store. -/
theorem index_document_rejects_empty_input_witness :
    index_document (V := Nat) 600 100 120 10 id (fun _ => []) "d" "empty.txt" []
        ⟨[], []⟩
      = some (.error ("Could not extract any pages from " ++ "empty.txt"), ⟨[], []⟩) :=
  (index_document_rejects_empty_input 600 100 120 10 id (fun _ => []) "d" "empty.txt"
    [] [] 5 ⟨[], []⟩).1 rfl

/-! ## C9: over-fetch, truncation and rerank failure tolerance -/

/-- C9 counterexample: with `top_k = 1`, an active reranker and a rerank
call that returns the two valid indices `[0, 1]`, the search returns both
candidates — the result is *not* truncated to `top_k` on the successful
rerank path (`results = [results[i] for i in valid_indices]` has no
`[:top_k]`). -/
theorem search_truncates_counterexample :
    (search_orchestrate (R := Nat) (fun _ => [10, 20]) true true false
        (fun _ => .ok [0, 1]) (fun _ => .error "x") 1).1 = [10, 20] ∧
    ¬ ((search_orchestrate (R := Nat) (fun _ => [10, 20]) true true false
        (fun _ => .ok [0, 1]) (fun _ => .error "x") 1).1.length ≤ 1) := by
  constructor
  · rfl
  · decide

/-- C9 (corrected): with an active reranker the orchestrator fetches
`min(5 * top_k, 50)` candidates; if the external rerank call fails the
search still returns the original (unranked) similarity order truncated to
`top_k` instead of aborting, and the synthesis hook can never alter the
result list; but on a *successful* rerank the returned valid indices are
used without further truncation, so only the failure and no-rerank paths
are guaranteed to return at most `top_k` results. -/
theorem search_overfetch_and_fallback {R : Type} (store_search : Nat → List R)
    (rerank_call : List R → Except String (List Int))
    (synth_call synth_call' : List R → Except String String)
    (synth_opt : Bool) (topK : Nat) (e : String)
    (hfail : rerank_call (store_search (min (topK * 5) 50)) = .error e) :
    (search_orchestrate store_search true true synth_opt rerank_call synth_call topK).1
      = (store_search (min (topK * 5) 50)).take topK ∧
    (search_orchestrate store_search true true synth_opt rerank_call synth_call topK).1.length
      ≤ topK ∧
    (search_orchestrate store_search true true synth_opt rerank_call synth_call topK).1
      = (search_orchestrate store_search true true synth_opt rerank_call synth_call' topK).1 := by
  have hres : search_results store_search true true rerank_call topK
      = (store_search (min (topK * 5) 50)).take topK := by
    unfold search_results
    have hfk : search_fetch_k true true topK = min (topK * 5) 50 := rfl
    rw [hfk]
    by_cases hemp : (store_search (min (topK * 5) 50)).isEmpty = true
    · rw [if_neg (by simp [hemp])]
    · rw [if_pos (by simp [hemp]), hfail]
      rfl
  refine ⟨?_, ?_, ?_⟩
  · exact hres
  · show (search_results store_search true true rerank_call topK).length ≤ topK
    rw [hres, List.length_take]
    exact Nat.min_le_left _ _
  · rfl

/-- C9 witness: a three-candidate pool with a failing rerank call and
`top_k = 2` falls back to the first two candidates in original order. -/
theorem search_overfetch_and_fallback_witness :
    (search_orchestrate (R := Nat) (fun _ => [5, 6, 7]) true true false
        (fun _ => .error "boom") (fun _ => .ok "t") 2).1 = [5, 6] ∧
    (search_orchestrate (R := Nat) (fun _ => [5, 6, 7]) true true false
        (fun _ => .error "boom") (fun _ => .ok "t") 2).1.length ≤ 2 ∧
    (search_orchestrate (R := Nat) (fun _ => [5, 6, 7]) true true false
        (fun _ => .error "boom") (fun _ => .ok "t") 2).1
      = (search_orchestrate (R := Nat) (fun _ => [5, 6, 7]) true true false
          (fun _ => .error "boom") (fun _ => .error "z") 2).1 :=
  search_overfetch_and_fallback (fun _ => [5, 6, 7]) (fun _ => .error "boom")
    (fun _ => .ok "t") (fun _ => .error "z") false 2 "boom" rfl

/-! ## C10: search returns at most min(top_k, indexed vectors) results -/

/-- C10 (confirmed): for every query and `top_k`, `VectorStoreV2.search`
returns at most `min(top_k, ntotal)` results (the FAISS call is asked for
exactly that many hits and each hit yields at most one result), and an
empty index yields the empty result list rather than an error. -/
theorem search_result_count_bounded {V S : Type} (s : V2State V)
    (faiss_search : Nat → List (S × Int)) (topK : Nat)
    (hk : (faiss_search (min topK s.faiss.length)).length = min topK s.faiss.length) :
    (search s faiss_search topK).length ≤ min topK s.faiss.length ∧
    (s.faiss.length = 0 → search s faiss_search topK = []) := by
  constructor
  · unfold search
    by_cases hz : s.faiss.length = 0
    · rw [if_pos hz]
      exact Nat.zero_le _
    · rw [if_neg hz]
      calc ((faiss_search (min topK s.faiss.length)).filterMap _).length
          ≤ (faiss_search (min topK s.faiss.length)).length :=
            List.length_filterMap_le _ _
        _ = min topK s.faiss.length := hk
  · intro hz
    unfold search
    rw [if_pos hz]

/-- C10 witness: a two-vector store searched with `top_k = 5` through a
FAISS stub returning the first `k` ordinals yields at most `min 5 2`
results. -/
theorem search_result_count_bounded_witness :
    (search (V := Nat) (S := Nat)
        ⟨[0, 0], [⟨"a_p1_c0", "a", "a.txt", 1, 0, ['u']⟩,
                  ⟨"a_p1_c1", "a", "a.txt", 1, 1, ['v']⟩]⟩
        (fun k => (List.range k).map (fun i => (1, (i : Int)))) 5).length
      ≤ min 5 (⟨[0, 0], [⟨"a_p1_c0", "a", "a.txt", 1, 0, ['u']⟩,
                  ⟨"a_p1_c1", "a", "a.txt", 1, 1, ['v']⟩]⟩ : V2State Nat).faiss.length ∧
    ((⟨[0, 0], [⟨"a_p1_c0", "a", "a.txt", 1, 0, ['u']⟩,
                  ⟨"a_p1_c1", "a", "a.txt", 1, 1, ['v']⟩]⟩ : V2State Nat).faiss.length = 0 →
      search (V := Nat) (S := Nat)
        ⟨[0, 0], [⟨"a_p1_c0", "a", "a.txt", 1, 0, ['u']⟩,
                  ⟨"a_p1_c1", "a", "a.txt", 1, 1, ['v']⟩]⟩
        (fun k => (List.range k).map (fun i => (1, (i : Int)))) 5 = []) :=
  search_result_count_bounded
    ⟨[0, 0], [⟨"a_p1_c0", "a", "a.txt", 1, 0, ['u']⟩,
              ⟨"a_p1_c1", "a", "a.txt", 1, 1, ['v']⟩]⟩
    (fun k => (List.range k).map (fun i => (1, (i : Int)))) 5 (by decide)

end AsymptoteSpec
